import Mathlib

/-!
Verification of the PawSense behavior-analysis core: a shallow embedding of
`feature_extraction.py`, `action_classification.py` and `analyze_behavior.py`.

Modelling conventions:
* Python floats are modelled as `ℚ` (every operation the claims depend on is
  field arithmetic and comparisons, which the floats compute on exactly the
  same decision boundaries the spec names).
* The three genuinely real-valued numeric primitives of the source —
  `_compute_angle` (degrees∘arccos∘clip of a cosine), `np.linalg.norm` on a
  2-vector, and `np.sqrt` (reached through `np.std`) — are abstracted as a
  parameter record `NumOps`; every theorem quantifies over it, so each holds
  in particular for the real functions the source uses.
* A Python dict of features with a fixed key set is modelled as a structure;
  keys that a code path may leave absent are `Option`-valued (`none` = key
  absent), and `dict.get(k, 0)` becomes `Option.getD _ 0`.
* The detector result object is modelled by the only two observations the
  core makes of it: `orig_shape` and either no detection or exactly one
  (24-keypoint array, xywh box) pair.
-/

/-- A 2-D point (or 2-vector) of rational coordinates. -/
abbrev Pt : Type := ℚ × ℚ

/-- A fixed 24-slot keypoint array, as in the source domain (`[24,2]`). -/
abbrev Kpts : Type := Fin 24 → Pt

/-- An xywh bounding box `(cx, cy, w, h)` as the source's 4-vector. -/
structure BBox where
  cx : ℚ
  cy : ℚ
  w : ℚ
  h : ℚ

/-- One upstream detector result: image shape plus either no detection
(`keypoints.xy.size()[0] == 0` in the source) or one keypoint array and box. -/
structure DetectionResult where
  orig_shape : ℚ × ℚ
  det : Option (Kpts × BBox)

/-- The real-valued numeric primitives of the source, abstracted:
`ang` models `_compute_angle`, `nrm` models `np.linalg.norm` of a 2-vector,
`sqrt` models `np.sqrt` (the source reaches it through `np.std`). -/
structure NumOps where
  ang : Pt → Pt → Pt → ℚ
  nrm : Pt → ℚ
  sqrt : ℚ → ℚ

/-- `np.mean` of a list (the source only applies it to nonempty data). -/
def meanQ (l : List ℚ) : ℚ := l.sum / l.length

/-- `np.var` with `ddof = 0`: mean of squared deviations from the mean. -/
def varQ (l : List ℚ) : ℚ := meanQ (l.map (fun x => (x - meanQ l) ^ 2))

/-- `FeatureExtractor._count_peaks`: strict local maxima and minima of the
interior of the sequence; sequences shorter than 3 have none. -/
def countPeaks (values : List ℚ) : ℕ :=
  if values.length < 3 then 0
  else (List.range (values.length - 2)).countP (fun j =>
    let a := values.getD j 0
    let b := values.getD (j + 1) 0
    let c := values.getD (j + 2) 0
    decide ((a < b ∧ c < b) ∨ (b < a ∧ b < c)))

/-- `_process_result`: `none` when the frame has no detection; otherwise the
box-normalized keypoints (subtract box center, divide by box size) and the
box normalized by the image dimensions. -/
def _process_result (result : DetectionResult) : Option (Kpts × BBox) :=
  let img_w := result.orig_shape.1
  let img_h := result.orig_shape.2
  match result.det with
  | none => none
  | some (kpts_xy, box) =>
      some (fun i => (((kpts_xy i).1 - box.cx) / box.w, ((kpts_xy i).2 - box.cy) / box.h),
            ⟨box.cx / img_w, box.cy / img_h, box.w / img_w, box.h / img_h⟩)

/-- The per-frame feature mapping of the source (a Python dict with a fixed
key set).  Static keys are always present once a detection exists; motion
keys are `Option`-valued because some code paths leave them absent. -/
structure Features where
  front_left_leg_angle : ℚ
  front_right_leg_angle : ℚ
  rear_left_leg_angle : ℚ
  rear_right_leg_angle : ℚ
  tail_angle : ℚ
  paw_distance_front : ℚ
  paw_distance_rear : ℚ
  body_length : ℚ
  head_width : ℚ
  bbox_width : ℚ
  bbox_height : ℚ
  avg_velocity : Option ℚ
  tail_angle_variance : Option ℚ
  tail_oscillation_count : Option ℚ
  centroid_vertical_velocity : Option ℚ
  front_paws_vertical_velocity : Option ℚ
  rear_paws_vertical_velocity : Option ℚ
  bbox_center_variance : Option ℚ
  leg_angle_variance : Option ℚ
  leg_angle_change_rate : Option ℚ
deriving DecidableEq

/-- The static-feature dict built by `_extract_semantic_features` from the
normalized keypoints and box (motion keys not yet present). -/
def staticFeaturesOf (ops : NumOps) (kpts_norm : Kpts) (bbox_norm : BBox) : Features :=
  { front_left_leg_angle := ops.ang (kpts_norm 0) (kpts_norm 1) (kpts_norm 2)
    front_right_leg_angle := ops.ang (kpts_norm 6) (kpts_norm 7) (kpts_norm 8)
    rear_left_leg_angle := ops.ang (kpts_norm 3) (kpts_norm 4) (kpts_norm 5)
    rear_right_leg_angle := ops.ang (kpts_norm 9) (kpts_norm 10) (kpts_norm 11)
    tail_angle := ops.ang (kpts_norm 13) (kpts_norm 12) (kpts_norm 22)
    paw_distance_front := ops.nrm (kpts_norm 0 - kpts_norm 6)
    paw_distance_rear := ops.nrm (kpts_norm 3 - kpts_norm 9)
    body_length := ops.nrm (kpts_norm 22 - kpts_norm 13)
    head_width := ops.nrm (kpts_norm 20 - kpts_norm 21)
    bbox_width := bbox_norm.w
    bbox_height := bbox_norm.h
    avg_velocity := none
    tail_angle_variance := none
    tail_oscillation_count := none
    centroid_vertical_velocity := none
    front_paws_vertical_velocity := none
    rear_paws_vertical_velocity := none
    bbox_center_variance := none
    leg_angle_variance := none
    leg_angle_change_rate := none }

/-- `_extract_semantic_features`: `(None, None)` without a detection, else
the static feature dict plus the normalized keypoints. -/
def _extract_semantic_features (ops : NumOps) (result : DetectionResult) :
    Option (Features × Kpts) :=
  match _process_result result with
  | none => none
  | some (kpts_norm, bbox_norm) => some (staticFeaturesOf ops kpts_norm bbox_norm, kpts_norm)

/-- Consecutive-frame pairs `(x[t], x[t+1])` of a sequence. -/
def consecPairs (l : List (Kpts × BBox)) : List ((Kpts × BBox) × (Kpts × BBox)) :=
  l.zip l.tail

/-- The four leg angles of one buffered frame, in the source's order. -/
def legAngles (ops : NumOps) (kp : Kpts) : List ℚ :=
  [ops.ang (kp 0) (kp 1) (kp 2), ops.ang (kp 6) (kp 7) (kp 8),
   ops.ang (kp 3) (kp 4) (kp 5), ops.ang (kp 9) (kp 10) (kp 11)]

/-- `FeatureExtractor._compute_motion_features`: fills all nine motion keys
of the feature dict from the whole current buffer. -/
def computeMotionFeatures (ops : NumOps) (buf : List (Kpts × BBox)) (features : Features) :
    Features :=
  let pairs := consecPairs buf
  let avg_velocity := meanQ ((pairs.map (fun pq =>
    List.ofFn (fun i : Fin 24 => ops.nrm (pq.2.1 i - pq.1.1 i)))).flatten)
  let tail_angles := buf.map (fun kb => ops.ang (kb.1 13) (kb.1 12) (kb.1 22))
  let centroid_y_seq := buf.map (fun kb => kb.2.cy)
  let vertical_diffs := (centroid_y_seq.zip centroid_y_seq.tail).map (fun pq => pq.2 - pq.1)
  let front_paws_y := buf.map (fun kb => ((kb.1 0).2 + (kb.1 6).2) / 2)
  let rear_paws_y := buf.map (fun kb => ((kb.1 3).2 + (kb.1 9).2) / 2)
  let front_diffs := (front_paws_y.zip front_paws_y.tail).map (fun pq => pq.2 - pq.1)
  let rear_diffs := (rear_paws_y.zip rear_paws_y.tail).map (fun pq => pq.2 - pq.1)
  let leg_angles_seq := buf.map (fun kb => legAngles ops kb.1)
  let per_leg := (List.range 4).map (fun leg => leg_angles_seq.map (fun row => row.getD leg 0))
  let leg_angle_diffs := (leg_angles_seq.zip leg_angles_seq.tail).map (fun pq =>
    (List.range 4).map (fun leg => |pq.2.getD leg 0 - pq.1.getD leg 0|))
  { features with
    avg_velocity := some avg_velocity
    tail_angle_variance := some (ops.sqrt (varQ tail_angles))
    tail_oscillation_count := some (countPeaks tail_angles : ℚ)
    centroid_vertical_velocity := some (meanQ vertical_diffs)
    front_paws_vertical_velocity := some (meanQ front_diffs)
    rear_paws_vertical_velocity := some (meanQ rear_diffs)
    bbox_center_variance := some (meanQ [varQ (buf.map (fun kb => kb.2.cx)),
                                         varQ (buf.map (fun kb => kb.2.cy))])
    leg_angle_variance := some (meanQ (per_leg.map varQ))
    leg_angle_change_rate := some (meanQ leg_angle_diffs.flatten) }

/-- The `FeatureExtractor` state: configured window size and the FIFO
`history_buffer` of normalized (keypoints, bbox) pairs. -/
structure FeatureExtractor where
  window_size : ℕ
  history_buffer : List (Kpts × BBox)

/-- `FeatureExtractor.update`: on no detection returns the `(None, None)`
sentinel without touching the buffer; on a detection computes static
features, appends to the buffer (evicting the oldest when over capacity),
then either computes motion features (buffer ≥ 2) or zero-fills exactly the
four keys the source's `else` branch assigns. -/
def FeatureExtractor.update (ops : NumOps) (st : FeatureExtractor) (result : DetectionResult) :
    (Option Features × Option Kpts) × FeatureExtractor :=
  match _process_result result with
  | none => ((none, none), st)
  | some (kpts_norm, bbox_norm) =>
      let features := staticFeaturesOf ops kpts_norm bbox_norm
      let buf0 := st.history_buffer ++ [(kpts_norm, bbox_norm)]
      let buf := if st.window_size < buf0.length then buf0.tail else buf0
      let features :=
        if 2 ≤ buf.length then computeMotionFeatures ops buf features
        else { features with
                avg_velocity := some 0
                tail_angle_variance := some 0
                centroid_vertical_velocity := some 0
                front_paws_vertical_velocity := some 0 }
      ((some features, some kpts_norm), { st with history_buffer := buf })

/-- Mean y of the two front paws (keypoints 0 and 6) of a normalized frame. -/
def frontPawsY (k : Kpts) : ℚ := ((k 0).2 + (k 6).2) / 2

/-- Mean y of the two rear paws (keypoints 3 and 9) of a normalized frame. -/
def rearPawsY (k : Kpts) : ℚ := ((k 3).2 + (k 9).2) / 2

/-- `paw_height_diff`: positive means the rear paws sit lower in the image. -/
def pawHeightDiff (k : Kpts) : ℚ := rearPawsY k - frontPawsY k

def VELOCITY_THRESHOLD_IDLE : ℚ := 1 / 20
def VELOCITY_THRESHOLD_WALK : ℚ := 3 / 20
def JUMP_VELOCITY_THRESHOLD : ℚ := -3 / 200
def REAR_FRONT_VELOCITY_THRESHOLD : ℚ := -1 / 200
def TAIL_VARIANCE_THRESHOLD : ℚ := 9
def TAIL_OSCILLATION_THRESHOLD : ℚ := 25
def LEG_STRIDE_THRESHOLD : ℚ := 15

/-- The motion-state block of `recognize_action` (step 2 of the source). -/
def motionOf (f : Features) : String :=
  if f.avg_velocity.getD 0 > VELOCITY_THRESHOLD_IDLE then
    if f.avg_velocity.getD 0 > VELOCITY_THRESHOLD_WALK
        ∧ f.leg_angle_variance.getD 0 > LEG_STRIDE_THRESHOLD
    then "running" else "walking"
  else "idle"

/-- The static-pose block of `recognize_action` (step 3 of the source; the
source evaluates it only when the motion state is `"idle"`). -/
def poseOf (f : Features) (k : Kpts) : String :=
  if (f.rear_left_leg_angle < 70 ∨ f.rear_right_leg_angle < 70)
      ∧ f.front_left_leg_angle > 60 ∧ f.front_right_leg_angle > 60 then "sitting"
  else if f.rear_left_leg_angle > 80 ∧ f.rear_right_leg_angle > 80
      ∧ f.front_left_leg_angle > 80 ∧ f.front_right_leg_angle > 80 then "standing"
  else if f.rear_left_leg_angle > 80 ∧ f.rear_right_leg_angle > 80
      ∧ (rearPawsY k + |frontPawsY k|) > (3 / 5 : ℚ)
      ∧ f.bbox_height / (f.bbox_width + (1 / 1000000 : ℚ)) > (3 / 2 : ℚ) then "standing_on_two_legs"
  else if f.rear_left_leg_angle < 40 ∧ f.rear_right_leg_angle < 40
      ∧ f.front_left_leg_angle < 50 ∧ f.front_right_leg_angle < 50 then "lying"
  else "unknown"

/-- `recognize_action`: the ordered decision procedure of
`action_classification.py` (jump → rear → motion → pose → wagging suffix),
failing closed to `"unknown"` when either input is absent. -/
def recognize_action (features : Option Features) (keypoints_norm : Option Kpts) : String :=
  match features, keypoints_norm with
  | some f, some k =>
      if f.centroid_vertical_velocity.getD 0 < JUMP_VELOCITY_THRESHOLD then "jumping"
      else if f.front_paws_vertical_velocity.getD 0 < REAR_FRONT_VELOCITY_THRESHOLD
          ∨ pawHeightDiff k > (3 / 10 : ℚ) then "rearing"
      else
        let motion := motionOf f
        let pose := if motion = "idle" then poseOf f k else "unknown"
        if motion ≠ "idle" then motion
        else if pose = "unknown" then "idle"
        else if f.tail_angle_variance.getD 0 > TAIL_VARIANCE_THRESHOLD
            ∧ f.tail_oscillation_count.getD 0 > TAIL_OSCILLATION_THRESHOLD
          then pose ++ "_wagging" else pose
  | _, _ => "unknown"

/-- One step of the aggregator's temporal filtering (`analyze_behavior`,
"Temporal filtering" block): a raw `"running"` label grows the rolling
buffer (capacity 5, oldest dropped) and is downgraded to `"walking"` until
the buffer is full; any other label clears the buffer and passes through. -/
def smoothStep (mh : List String) (action : String) : String × List String :=
  if action = "running" then
    let mh1 := mh ++ ["running"]
    let mh2 := if 5 < mh1.length then mh1.tail else mh1
    ((if mh2.length < 5 then "walking" else action), mh2)
  else (action, [])

/-- The temporal filter run over a raw label stream from buffer `mh`. -/
def smoothGo (mh : List String) : List String → List String
  | [] => []
  | a :: rest => (smoothStep mh a).1 :: smoothGo (smoothStep mh a).2 rest

/-- The aggregator's smoothed label stream for a raw label stream. -/
def smoothLabels (raw : List String) : List String := smoothGo [] raw

/-- An entry of the aggregator's `action_segments` list. -/
structure ActionSegment where
  action : String
  start_frame : ℕ
  end_frame : ℕ
  duration_frames : ℕ
  duration_seconds : ℚ
deriving DecidableEq

/-- The segmentation loop of `analyze_behavior`: `i` is the position in the
(dense) record list, `cur`/`start` the open segment, `segs` the accumulator;
the final segment closes at `total - 1` (end of stream). -/
def segGo (total : ℕ) : List String → ℕ → Option String → ℕ → List ActionSegment →
    List ActionSegment
  | [], _i, cur, start, segs =>
      match cur with
      | none => segs
      | some a => segs ++ [⟨a, start, total - 1, total - start, ((total - start : ℕ) : ℚ) / 30⟩]
  | l :: rest, i, cur, start, segs =>
      if some l ≠ cur then
        match cur with
        | none => segGo total rest (i + 1) (some l) i segs
        | some a => segGo total rest (i + 1) (some l) i
            (segs ++ [⟨a, start, i - 1, i - start, ((i - start : ℕ) : ℚ) / 30⟩])
      else
        segGo total rest (i + 1) cur start segs

/-- The segment list `analyze_behavior` produces from the smoothed labels
of the per-frame records (only the `action` field of a record is read). -/
def segmentsOf (labels : List String) : List ActionSegment :=
  segGo labels.length labels 0 none 0 []

/-- One entry of the aggregator's `frame_by_frame_data` list (the formatted
strings of the source are modelled by their numeric values). -/
structure FrameRecord where
  frame : ℕ
  action : String
  velocity : ℚ
  tail_variance : ℚ
  is_tail_wagging : Bool
  centroid_vertical_velocity : ℚ
  leg_angle_variance : ℚ
deriving DecidableEq

/-- The aggregator's per-frame tail-wagging flag: variance above 9.0 and
oscillation count above 10 (note: 10, not the classifier's 25). -/
def is_tail_wagging_record (f : Features) : Bool :=
  decide (f.tail_angle_variance.getD 0 > 9) && decide (f.tail_oscillation_count.getD 0 > 10)

/-- The per-frame record `analyze_behavior` stores for a processed frame. -/
def mkFrameRecord (idx : ℕ) (action : String) (f : Features) : FrameRecord :=
  { frame := idx
    action := action
    velocity := f.avg_velocity.getD 0
    tail_variance := f.tail_angle_variance.getD 0
    is_tail_wagging := is_tail_wagging_record f
    centroid_vertical_velocity := f.centroid_vertical_velocity.getD 0
    leg_angle_variance := f.leg_angle_variance.getD 0 }

/-- The loop state of `analyze_behavior`'s main frame loop. -/
structure LoopState where
  ext : FeatureExtractor
  motion_history : List String
  frame_actions : List FrameRecord

/-- One iteration of `analyze_behavior`'s frame loop: update the extractor;
if the frame produced no features it is skipped entirely, otherwise
classify, temporally filter, and append the per-frame record. -/
def processFrame (ops : NumOps) (st : LoopState) (p : ℕ × DetectionResult) : LoopState :=
  let u := FeatureExtractor.update ops st.ext p.2
  match u.1.1 with
  | none => { st with ext := u.2 }
  | some f =>
      let action := recognize_action (some f) u.1.2
      let sm := smoothStep st.motion_history action
      { ext := u.2
        motion_history := sm.2
        frame_actions := st.frame_actions ++ [mkFrameRecord p.1 sm.1 f] }

/-- `analyze_behavior`'s frame loop over an enumerated result stream. -/
def runStream (ops : NumOps) (st : LoopState) (l : List (ℕ × DetectionResult)) : LoopState :=
  l.foldl (processFrame ops) st

/-- Per-action statistics of the aggregator (formatted percentage strings
of the source modelled by their numeric values). -/
structure ActionStats where
  total_frames : ℕ
  percentage : ℚ
  avg_velocity : ℚ
  velocity_min : ℚ
  velocity_max : ℚ
  tail_wagging_frames : ℕ
  tail_wagging_percentage : ℚ
deriving DecidableEq

/-- The Behavior Summary artifact returned by `analyze_behavior`. -/
structure BehaviorSummary where
  total_frames : ℕ
  duration_seconds : ℚ
  estimated_fps : ℕ
  action_statistics : List (String × ActionStats)
  action_timeline : List ActionSegment
  frame_by_frame_data : List FrameRecord
deriving DecidableEq

/-- The statistics entry of one action label over the full record list. -/
def statsFor (frame_actions : List FrameRecord) (a : String) : ActionStats :=
  let action_frames := frame_actions.filter (fun r => r.action == a)
  let velocities := action_frames.map (fun r => r.velocity)
  let tail_wags := action_frames.filter (fun r => r.is_tail_wagging)
  { total_frames := action_frames.length
    percentage := (action_frames.length : ℚ) / frame_actions.length * 100
    avg_velocity := meanQ velocities
    velocity_min := velocities.min?.getD 0
    velocity_max := velocities.max?.getD 0
    tail_wagging_frames := tail_wags.length
    tail_wagging_percentage := (tail_wags.length : ℚ) / action_frames.length * 100 }

/-- `analyze_behavior` of `analyze_behavior.py`.  The source returns
normally on every input, including the empty stream (there is no exception
path), so the model is a total function; the Python `set` of action labels
is modelled by the deduplicated label list (the source iterates it in
unspecified hash order, and nothing downstream depends on that order). -/
def analyze_behavior (ops : NumOps) (results : List DetectionResult) : BehaviorSummary :=
  let st := runStream ops ⟨⟨60, []⟩, [], []⟩ results.enum
  let frame_actions := st.frame_actions
  let action_segments := segmentsOf (frame_actions.map (fun r => r.action))
  let action_stats := ((frame_actions.map (fun r => r.action)).eraseDups).map
    (fun a => (a, statsFor frame_actions a))
  { total_frames := frame_actions.length
    duration_seconds := (frame_actions.length : ℚ) / 30
    estimated_fps := 30
    action_statistics := action_stats
    action_timeline := action_segments
    frame_by_frame_data := frame_actions }

/-- A concrete instantiation of the numeric primitives, used to evaluate
the model on concrete inputs (any instantiation witnesses the ∀-quantified
theorems). -/
def trivOps : NumOps := ⟨fun _ _ _ => 0, fun _ => 0, fun _ => 0⟩

/-- A concrete frame with no detection. -/
def noDetRes : DetectionResult := ⟨(100, 100), none⟩

/-- A concrete keypoint array: every keypoint at the box center. -/
def demoKpts : Kpts := fun _ => (50, 50)

/-- A concrete bounding box. -/
def demoBox : BBox := ⟨50, 50, 10, 10⟩

/-- A concrete frame carrying a detection. -/
def detRes : DetectionResult := ⟨(100, 100), some (demoKpts, demoBox)⟩

/-- Normalized keypoints all at the origin. -/
def kZero : Kpts := fun _ => (0, 0)

/-- A feature set whose centroid vertical velocity is strictly below the
jump threshold. -/
def fJump : Features :=
  { front_left_leg_angle := 0, front_right_leg_angle := 0, rear_left_leg_angle := 0,
    rear_right_leg_angle := 0, tail_angle := 0, paw_distance_front := 0,
    paw_distance_rear := 0, body_length := 0, head_width := 0, bbox_width := 1,
    bbox_height := 1, avg_velocity := none, tail_angle_variance := none,
    tail_oscillation_count := none, centroid_vertical_velocity := some (-1),
    front_paws_vertical_velocity := none, rear_paws_vertical_velocity := none,
    bbox_center_variance := none, leg_angle_variance := none, leg_angle_change_rate := none }

/-- A feature set whose centroid vertical velocity equals the threshold. -/
def fEdge : Features :=
  { fJump with centroid_vertical_velocity := some (-3 / 200) }

/-- The C9 feature set: tail-angle deviation 10 (above 9.0) and oscillation
count 20 (above the record threshold 10, at or below the label threshold
25), motion idle, leg angles matching the sitting pattern. -/
def fMismatch : Features :=
  { front_left_leg_angle := 80, front_right_leg_angle := 80, rear_left_leg_angle := 50,
    rear_right_leg_angle := 50, tail_angle := 0, paw_distance_front := 0,
    paw_distance_rear := 0, body_length := 0, head_width := 0, bbox_width := 1,
    bbox_height := 1, avg_velocity := some 0, tail_angle_variance := some 10,
    tail_oscillation_count := some 20, centroid_vertical_velocity := some 0,
    front_paws_vertical_velocity := some 0, rear_paws_vertical_velocity := none,
    bbox_center_variance := none, leg_angle_variance := some 0,
    leg_angle_change_rate := none }

/-- Length-indexed model of the temporal filter: the rolling buffer only
ever holds copies of `"running"`, so it is determined by its length
`m ≤ 5`. -/
def smoothL (m : ℕ) : List String → List String
  | [] => []
  | a :: rest =>
      if a = "running" then
        (if m < 4 then "walking" else "running") :: smoothL (min (m + 1) 5) rest
      else a :: smoothL 0 rest

/-- The condition under which the filter's output at position `i` is
`"running"`, given an initial buffer of `m` prior running frames. -/
def runCond (m : ℕ) (raw : List String) (i : ℕ) : Prop :=
  (∀ j, i - 4 ≤ j → j ≤ i → raw.getD j "" = "running") ∧ (4 ≤ i ∨ 4 ≤ m + i)

/-- Coverage/ordering invariant of a segment list: starting at record
position `k`, each segment starts exactly where the previous one ended
(+1), covers at least one record, and its `end_frame` and `duration_frames`
agree. -/
def chainFrom : ℕ → List ActionSegment → Prop
  | _, [] => True
  | k, s :: rest =>
      s.start_frame = k ∧ 1 ≤ s.duration_frames
        ∧ s.end_frame + 1 = k + s.duration_frames
        ∧ chainFrom (k + s.duration_frames) rest

/-- A stream whose first frame has no detection, so the original indices of
the processed frames are 1 and 2. -/
def gapResults : List DetectionResult := [noDetRes, detRes, detRes]


/-- `motionOf` can only produce one of its three literal labels. -/
theorem motionOf_mem (f : Features) :
    motionOf f = "running" ∨ motionOf f = "walking" ∨ motionOf f = "idle" := by
  unfold motionOf
  split
  · split
    · exact Or.inl rfl
    · exact Or.inr (Or.inl rfl)
  · exact Or.inr (Or.inr rfl)

/-- `poseOf` can only produce one of its five literal labels. -/
theorem poseOf_mem (f : Features) (k : Kpts) :
    poseOf f k = "sitting" ∨ poseOf f k = "standing" ∨ poseOf f k = "standing_on_two_legs"
      ∨ poseOf f k = "lying" ∨ poseOf f k = "unknown" := by
  unfold poseOf
  split
  · exact Or.inl rfl
  split
  · exact Or.inr (Or.inl rfl)
  split
  · exact Or.inr (Or.inr (Or.inl rfl))
  split
  · exact Or.inr (Or.inr (Or.inr (Or.inl rfl)))
  · exact Or.inr (Or.inr (Or.inr (Or.inr rfl)))

/-- C8: on an empty (no-detection) frame, `FeatureExtractor.update` returns
the `(none, none)` sentinel and leaves the extractor state — in particular
its sliding-window buffer — exactly unchanged. -/
theorem update_skips_empty_detection (ops : NumOps) (st : FeatureExtractor)
    (r : DetectionResult) (h : r.det = none) :
    FeatureExtractor.update ops st r = ((none, none), st) := by
  simp [FeatureExtractor.update, _process_result, h]

theorem update_skips_empty_detection_witness :
    FeatureExtractor.update trivOps ⟨60, []⟩ noDetRes = ((none, none), ⟨60, []⟩) :=
  update_skips_empty_detection trivOps ⟨60, []⟩ noDetRes rfl

/-- A frame with no detection is a complete no-op for the aggregator loop. -/
theorem processFrame_nodet (ops : NumOps) (st : LoopState) (p : ℕ × DetectionResult)
    (h : p.2.det = none) : processFrame ops st p = st := by
  simp [processFrame, FeatureExtractor.update, _process_result, h]

/-- C10: a block of frames with no detection leaves the whole aggregator
loop state — in particular the running-debounce buffer `motion_history` —
unchanged, so raw `"running"` runs separated only by no-detection frames
count as consecutive toward the 5-frame requirement. -/
theorem nodet_frames_preserve_motion_history (ops : NumOps) (st : LoopState)
    (l : List (ℕ × DetectionResult)) (h : ∀ p ∈ l, p.2.det = none) :
    runStream ops st l = st := by
  induction l generalizing st with
  | nil => rfl
  | cons p t ih =>
      simp only [runStream, List.foldl_cons]
      rw [processFrame_nodet ops st p (h p (List.mem_cons_self p t))]
      exact ih st (fun q hq => h q (List.mem_cons_of_mem p hq))

theorem nodet_frames_preserve_motion_history_witness :
    runStream trivOps ⟨⟨60, []⟩, ["running", "running"], []⟩ [(0, noDetRes), (1, noDetRes)]
      = ⟨⟨60, []⟩, ["running", "running"], []⟩ := by
  refine nodet_frames_preserve_motion_history trivOps _ _ ?_
  intro p hp
  rcases List.mem_cons.mp hp with h | h
  · rw [h]; rfl
  · rw [List.mem_singleton.mp h]; rfl

/-- C1 (counterexample): on the empty frame stream the aggregator does not
raise any "no data" failure — it returns a Behavior Summary whose segment,
statistics and per-frame arrays are all zero-length. -/
theorem empty_stream_counterexample :
    (analyze_behavior trivOps []).action_timeline = []
  ∧ (analyze_behavior trivOps []).action_statistics = []
  ∧ (analyze_behavior trivOps []).frame_by_frame_data = []
  ∧ (analyze_behavior trivOps []).total_frames = 0 := ⟨rfl, rfl, rfl, rfl⟩

/-- C1 (amended): on an empty frame stream `analyze_behavior` returns
normally, producing a Behavior Summary with zero total frames, zero
duration, and empty statistics, timeline and per-frame lists. -/
theorem empty_stream_returns_empty_summary (ops : NumOps) :
    (analyze_behavior ops []).total_frames = 0
  ∧ (analyze_behavior ops []).duration_seconds = 0
  ∧ (analyze_behavior ops []).action_statistics = []
  ∧ (analyze_behavior ops []).action_timeline = []
  ∧ (analyze_behavior ops []).frame_by_frame_data = [] := by
  refine ⟨rfl, ?_, rfl, rfl, rfl⟩
  show ((List.length [] : ℕ) : ℚ) / 30 = 0
  norm_num

/-- C2 (counterexample): feeding one valid detection to a fresh extractor
(buffer still below 2 frames) yields a feature mapping in which five of the
nine motion keys are absent, not zero-filled — here `tail_oscillation_count`
and four others — while only four are zero-filled. -/
theorem zero_fill_counterexample :
    ((FeatureExtractor.update trivOps ⟨60, []⟩ detRes).1.1.map
      (fun f => f.tail_oscillation_count)) = some none
  ∧ ((FeatureExtractor.update trivOps ⟨60, []⟩ detRes).1.1.map
      (fun f => f.rear_paws_vertical_velocity)) = some none
  ∧ ((FeatureExtractor.update trivOps ⟨60, []⟩ detRes).1.1.map
      (fun f => f.leg_angle_variance)) = some none
  ∧ ((FeatureExtractor.update trivOps ⟨60, []⟩ detRes).1.1.map
      (fun f => f.leg_angle_change_rate)) = some none
  ∧ ((FeatureExtractor.update trivOps ⟨60, []⟩ detRes).1.1.map
      (fun f => f.bbox_center_variance)) = some none
  ∧ ((FeatureExtractor.update trivOps ⟨60, []⟩ detRes).1.1.map
      (fun f => f.avg_velocity)) = some (some 0) := by decide

/-- C2 (amended): with a valid detection and fewer than 2 buffered frames,
`update` zero-fills exactly the four motion keys of the source's `else`
branch (`avg_velocity`, `tail_angle_variance`, `centroid_vertical_velocity`,
`front_paws_vertical_velocity`) and leaves the remaining five motion keys
absent; the classifier tolerates the absence through its `.get` defaults. -/
theorem zero_fill_amended (ops : NumOps) (st : FeatureExtractor) (r : DetectionResult)
    (kb : Kpts × BBox) (hdet : r.det = some kb) (hbuf : st.history_buffer = []) :
    ∃ f, (FeatureExtractor.update ops st r).1.1 = some f
      ∧ f.avg_velocity = some 0 ∧ f.tail_angle_variance = some 0
      ∧ f.centroid_vertical_velocity = some 0 ∧ f.front_paws_vertical_velocity = some 0
      ∧ f.tail_oscillation_count = none ∧ f.rear_paws_vertical_velocity = none
      ∧ f.leg_angle_variance = none ∧ f.leg_angle_change_rate = none
      ∧ f.bbox_center_variance = none := by
  obtain ⟨kp, bx⟩ := kb
  simp only [FeatureExtractor.update, _process_result, hdet, hbuf, List.nil_append,
    List.length_singleton]
  by_cases hw : st.window_size < 1
  · rw [if_pos hw]
    exact ⟨_, rfl, rfl, rfl, rfl, rfl, rfl, rfl, rfl, rfl, rfl⟩
  · rw [if_neg hw]
    exact ⟨_, rfl, rfl, rfl, rfl, rfl, rfl, rfl, rfl, rfl, rfl⟩

theorem zero_fill_amended_witness :
    ∃ f, (FeatureExtractor.update trivOps ⟨60, []⟩ detRes).1.1 = some f
      ∧ f.avg_velocity = some 0 ∧ f.tail_angle_variance = some 0
      ∧ f.centroid_vertical_velocity = some 0 ∧ f.front_paws_vertical_velocity = some 0
      ∧ f.tail_oscillation_count = none ∧ f.rear_paws_vertical_velocity = none
      ∧ f.leg_angle_variance = none ∧ f.leg_angle_change_rate = none
      ∧ f.bbox_center_variance = none :=
  zero_fill_amended trivOps ⟨60, []⟩ detRes (demoKpts, demoBox) rfl rfl

/-- C6: in `recognize_action` the jump comparison is strict — a centroid
vertical velocity exactly at `JUMP_VELOCITY_THRESHOLD` never yields
`"jumping"`, while any value strictly below it yields `"jumping"`
regardless of every other feature, the jump rule being evaluated first. -/
theorem jump_threshold_strict (f : Features) (k : Kpts) :
    (f.centroid_vertical_velocity.getD 0 = JUMP_VELOCITY_THRESHOLD →
      recognize_action (some f) (some k) ≠ "jumping")
  ∧ (f.centroid_vertical_velocity.getD 0 < JUMP_VELOCITY_THRESHOLD →
      recognize_action (some f) (some k) = "jumping") := by
  constructor
  · intro h
    simp only [recognize_action]
    rw [if_neg (by rw [h]; exact lt_irrefl _)]
    split_ifs <;>
      first
        | decide
        | (rcases motionOf_mem f with hm | hm | hm <;> rw [hm] <;> decide)
        | (rcases poseOf_mem f k with hp | hp | hp | hp | hp <;> rw [hp] <;> decide)
  · intro h
    simp only [recognize_action]
    rw [if_pos h]

theorem jump_threshold_strict_witness :
    recognize_action (some fJump) (some kZero) = "jumping"
  ∧ recognize_action (some fEdge) (some kZero) ≠ "jumping" :=
  ⟨(jump_threshold_strict fJump kZero).2 (by with_unfolding_all decide),
   (jump_threshold_strict fEdge kZero).1 (by with_unfolding_all decide)⟩

/-- C7: once the classification reaches label construction with motion
`"idle"` and a known pose, the returned label carries the `"_wagging"`
suffix (it equals the pose with `"_wagging"` appended) exactly when BOTH
the tail-angle standard deviation exceeds its threshold AND the oscillation
count exceeds its minimum; otherwise the bare pose label is returned. -/
theorem wagging_suffix_iff (f : Features) (k : Kpts)
    (hj : ¬ f.centroid_vertical_velocity.getD 0 < JUMP_VELOCITY_THRESHOLD)
    (hr : ¬ (f.front_paws_vertical_velocity.getD 0 < REAR_FRONT_VELOCITY_THRESHOLD
              ∨ pawHeightDiff k > (3 / 10 : ℚ)))
    (hm : motionOf f = "idle") (hp : poseOf f k ≠ "unknown") :
    (recognize_action (some f) (some k) = poseOf f k ++ "_wagging" ↔
      (f.tail_angle_variance.getD 0 > TAIL_VARIANCE_THRESHOLD
        ∧ f.tail_oscillation_count.getD 0 > TAIL_OSCILLATION_THRESHOLD))
  ∧ (¬ (f.tail_angle_variance.getD 0 > TAIL_VARIANCE_THRESHOLD
        ∧ f.tail_oscillation_count.getD 0 > TAIL_OSCILLATION_THRESHOLD) →
      recognize_action (some f) (some k) = poseOf f k) := by
  have hlen : poseOf f k ≠ poseOf f k ++ "_wagging" := by
    intro hEq
    have h1 := congrArg String.length hEq
    rw [String.length_append] at h1
    have h2 : ("_wagging" : String).length = 8 := rfl
    omega
  simp only [recognize_action]
  rw [if_neg hj, if_neg hr, hm]
  rw [if_pos rfl, if_neg (by simp), if_neg hp]
  by_cases hw : f.tail_angle_variance.getD 0 > TAIL_VARIANCE_THRESHOLD
      ∧ f.tail_oscillation_count.getD 0 > TAIL_OSCILLATION_THRESHOLD
  · rw [if_pos hw]
    exact ⟨⟨fun _ => hw, fun _ => rfl⟩, fun hnw => absurd hw hnw⟩
  · rw [if_neg hw]
    exact ⟨⟨fun hEq => absurd hEq hlen, fun hw2 => absurd hw2 hw⟩, fun _ => rfl⟩

theorem wagging_suffix_iff_witness :
    recognize_action (some fMismatch) (some kZero) = poseOf fMismatch kZero :=
  (wagging_suffix_iff fMismatch kZero (by with_unfolding_all decide)
      (by with_unfolding_all decide) (by with_unfolding_all decide)
      (by with_unfolding_all decide)).2
    (by with_unfolding_all decide)

/-- C9: a feature set with tail-angle variance above 9.0 and oscillation
count in (10, 25] is flagged `is_tail_wagging` by the aggregator's
per-frame record, yet the classifier — with motion idle and a known pose —
returns a label without the `"_wagging"` suffix: the per-frame statistics
use an oscillation threshold of 10 while the label suffix requires 25. -/
theorem record_flags_wagging_label_does_not :
    is_tail_wagging_record fMismatch = true
  ∧ fMismatch.tail_angle_variance.getD 0 > 9
  ∧ fMismatch.tail_oscillation_count.getD 0 > 10
  ∧ fMismatch.tail_oscillation_count.getD 0 ≤ 25
  ∧ motionOf fMismatch = "idle"
  ∧ poseOf fMismatch kZero = "sitting"
  ∧ recognize_action (some fMismatch) (some kZero) = "sitting" := by
  with_unfolding_all decide

theorem smoothStep_replicate (m : ℕ) (hm : m ≤ 5) :
    smoothStep (List.replicate m "running") "running" =
      ((if m < 4 then "walking" else "running"), List.replicate (min (m + 1) 5) "running") := by
  have h1 : List.replicate m "running" ++ ["running"]
      = List.replicate (m + 1) "running" := by
    rw [← List.replicate_succ']
  by_cases h5 : m = 5
  · subst h5
    norm_num [smoothStep, h1, List.tail_replicate, List.length_replicate]
  · have h6 : ¬ 5 < m + 1 := by omega
    have hmin : min (m + 1) 5 = m + 1 := by omega
    by_cases h4 : m < 4
    · have h7 : m + 1 < 5 := by omega
      simp [smoothStep, h1, List.length_replicate, h6, h7, hmin, h4]
    · have h7 : ¬ m + 1 < 5 := by omega
      simp [smoothStep, h1, List.length_replicate, h6, h7, hmin, h4]

theorem smoothGo_replicate (raw : List String) : ∀ m, m ≤ 5 →
    smoothGo (List.replicate m "running") raw = smoothL m raw := by
  induction raw with
  | nil => intro m _; rfl
  | cons a rest ih =>
      intro m hm
      by_cases ha : a = "running"
      · subst ha
        rw [smoothGo, smoothStep_replicate m hm, smoothL, if_pos rfl]
        exact congrArg _ (ih (min (m + 1) 5) (by omega))
      · have hstep : smoothStep (List.replicate m "running") a = (a, []) := by
          simp [smoothStep, ha]
        rw [smoothGo, hstep, smoothL, if_neg ha]
        exact congrArg _ (ih 0 (by omega))

theorem smoothLabels_eq_smoothL (raw : List String) : smoothLabels raw = smoothL 0 raw :=
  smoothGo_replicate raw 0 (by omega)

theorem runCond_shift_run (rest : List String) (m i : ℕ) :
    runCond (min (m + 1) 5) rest i ↔ runCond m ("running" :: rest) (i + 1) := by
  unfold runCond
  constructor
  · rintro ⟨hw, hc⟩
    refine ⟨?_, by omega⟩
    intro j h1 h2
    cases j with
    | zero => rfl
    | succ j' =>
        rw [List.getD_cons_succ]
        exact hw j' (by omega) (by omega)
  · rintro ⟨hw, hc⟩
    refine ⟨?_, by omega⟩
    intro j h1 h2
    have h3 := hw (j + 1) (by omega) (by omega)
    rwa [List.getD_cons_succ] at h3

theorem runCond_shift_other (rest : List String) (a : String) (m i : ℕ)
    (ha : a ≠ "running") :
    runCond 0 rest i ↔ runCond m (a :: rest) (i + 1) := by
  unfold runCond
  constructor
  · rintro ⟨hw, hc⟩
    have hi4 : 4 ≤ i := by omega
    refine ⟨?_, by omega⟩
    intro j h1 h2
    cases j with
    | zero => exact absurd h1 (by omega)
    | succ j' =>
        rw [List.getD_cons_succ]
        exact hw j' (by omega) (by omega)
  · rintro ⟨hw, hc⟩
    by_cases hi4 : 4 ≤ i
    · refine ⟨?_, by omega⟩
      intro j h1 h2
      have h3 := hw (j + 1) (by omega) (by omega)
      rwa [List.getD_cons_succ] at h3
    · exfalso
      have h0 := hw 0 (by omega) (by omega)
      rw [List.getD_cons_zero] at h0
      exact ha h0

theorem smoothL_getD (raw : List String) : ∀ (m i : ℕ), m ≤ 5 → i < raw.length →
    (((smoothL m raw).getD i "" = "running") ↔ runCond m raw i)
  ∧ (raw.getD i "" ≠ "running" → (smoothL m raw).getD i "" = raw.getD i "")
  ∧ (raw.getD i "" = "running" →
      (smoothL m raw).getD i "" = "walking" ∨ (smoothL m raw).getD i "" = "running") := by
  induction raw with
  | nil => intro m i _ hi; simp at hi
  | cons a rest ih =>
      intro m i hm hi
      by_cases ha : a = "running"
      · subst ha
        rw [smoothL, if_pos rfl]
        cases i with
        | zero =>
            simp only [List.getD_cons_zero]
            refine ⟨⟨?_, ?_⟩, fun hne => absurd rfl hne, fun _ => ?_⟩
            · intro h
              refine ⟨fun j h1 h2 => ?_, ?_⟩
              · have hj : j = 0 := by omega
                subst hj
                rfl
              · by_cases h4 : m < 4
                · rw [if_pos h4] at h
                  exact absurd h (by decide)
                · right; omega
            · rintro ⟨_, hc⟩
              rw [if_neg (by omega : ¬ m < 4)]
            · by_cases h4 : m < 4
              · rw [if_pos h4]; exact Or.inl rfl
              · rw [if_neg h4]; exact Or.inr rfl
        | succ i' =>
            simp only [List.getD_cons_succ]
            have hi' : i' < rest.length := by
              rw [List.length_cons] at hi; omega
            have IH := ih (min (m + 1) 5) i' (by omega) hi'
            refine ⟨?_, IH.2.1, IH.2.2⟩
            rw [IH.1]
            exact runCond_shift_run rest m i'
      · rw [smoothL, if_neg ha]
        cases i with
        | zero =>
            simp only [List.getD_cons_zero]
            refine ⟨⟨fun h => absurd h ha, ?_⟩, fun _ => by trivial, fun h => absurd h ha⟩
            rintro ⟨hw, _⟩
            have h0 := hw 0 (by omega) (by omega)
            rw [List.getD_cons_zero] at h0
            exact absurd h0 ha
        | succ i' =>
            simp only [List.getD_cons_succ]
            have hi' : i' < rest.length := by
              rw [List.length_cons] at hi; omega
            have IH := ih 0 i' (by omega) hi'
            refine ⟨?_, IH.2.1, IH.2.2⟩
            rw [IH.1]
            exact runCond_shift_other rest a m i' ha

/-- C4: in the aggregator's smoothed stream, a processed frame surfaces as
`"running"` iff that frame and the 4 previously processed frames were all
raw-classified `"running"`; a raw `"running"` frame otherwise surfaces as
`"walking"`, and any non-running raw label passes through unchanged
(clearing the buffer), so a lone running frame surfaces as `"walking"`. -/
theorem running_requires_five_consecutive (raw : List String) (i : ℕ)
    (h : i < raw.length) :
    ((smoothLabels raw).getD i "" = "running" ↔
      (4 ≤ i ∧ ∀ j, i - 4 ≤ j → j ≤ i → raw.getD j "" = "running"))
  ∧ (raw.getD i "" ≠ "running" → (smoothLabels raw).getD i "" = raw.getD i "")
  ∧ (raw.getD i "" = "running" →
      (smoothLabels raw).getD i "" = "walking" ∨ (smoothLabels raw).getD i "" = "running") := by
  have H := smoothL_getD raw 0 i (by omega) h
  rw [smoothLabels_eq_smoothL]
  refine ⟨?_, H.2.1, H.2.2⟩
  rw [H.1]
  unfold runCond
  constructor
  · rintro ⟨hw, hc⟩
    exact ⟨by omega, hw⟩
  · rintro ⟨h4, hw⟩
    exact ⟨hw, Or.inl h4⟩

theorem running_requires_five_consecutive_witness :
    (smoothLabels ["walking", "running", "walking"]).getD 1 "" = "walking" := by
  have H := running_requires_five_consecutive ["walking", "running", "walking"] 1 (by decide)
  rcases H.2.2 rfl with h | h
  · exact h
  · exact absurd (H.1.mp h).1 (by omega)

theorem segGo_acc (total : ℕ) (rest : List String) : ∀ (i : ℕ) (cur : Option String)
    (start : ℕ) (segs : List ActionSegment),
    segGo total rest i cur start segs = segs ++ segGo total rest i cur start [] := by
  induction rest with
  | nil =>
      intro i cur start segs
      cases cur with
      | none => simp [segGo]
      | some a => simp [segGo]
  | cons l t ih =>
      intro i cur start segs
      cases cur with
      | none =>
          simp only [segGo]
          rw [if_pos (by simp), if_pos (by simp)]
          exact ih (i + 1) (some l) i segs
      | some a =>
          by_cases hl : l = a
          · subst hl
            simp only [segGo]
            rw [if_neg (by simp), if_neg (by simp)]
            exact ih (i + 1) (some l) start segs
          · simp only [segGo]
            rw [if_pos (by simp [hl]), if_pos (by simp [hl])]
            rw [ih (i + 1) (some l) i (segs ++ [_]), ih (i + 1) (some l) i ([] ++ [_])]
            simp [List.append_assoc]

theorem segGo_spec (total : ℕ) (rest : List String) : ∀ (a : String) (start k : ℕ),
    1 ≤ k → start + k + rest.length = total →
    chainFrom start (segGo total rest (start + k) (some a) start [])
  ∧ ((segGo total rest (start + k) (some a) start []).map
      (fun s => s.duration_frames)).sum = k + rest.length
  ∧ List.Chain' (fun s t => s.action ≠ t.action)
      (segGo total rest (start + k) (some a) start [])
  ∧ (∀ s ∈ segGo total rest (start + k) (some a) start [],
      s.duration_seconds = (s.duration_frames : ℚ) / 30)
  ∧ (∃ s0 tl, segGo total rest (start + k) (some a) start [] = s0 :: tl
        ∧ s0.action = a) := by
  induction rest with
  | nil =>
      intro a start k hk htot
      rw [List.length_nil] at htot
      simp only [segGo, List.nil_append]
      refine ⟨⟨rfl, ?_, ?_, trivial⟩, ?_, List.chain'_singleton _, ?_, _, [], rfl, rfl⟩
      · show 1 ≤ total - start
        omega
      · show total - 1 + 1 = start + (total - start)
        omega
      · simp only [List.map_cons, List.map_nil, List.sum_cons, List.sum_nil,
          List.length_nil]
        omega
      · intro s hs
        rw [List.mem_singleton] at hs
        subst hs
        rfl
  | cons l t ih =>
      intro a start k hk htot
      rw [List.length_cons] at htot
      by_cases hl : l = a
      · subst hl
        simp only [segGo]
        rw [if_neg (by simp)]
        have hidx : start + k + 1 = start + (k + 1) := by omega
        rw [hidx]
        have IH := ih l start (k + 1) (by omega) (by omega)
        refine ⟨IH.1, ?_, IH.2.2.1, IH.2.2.2.1, IH.2.2.2.2⟩
        have hs := IH.2.1
        rw [List.length_cons]
        omega
      · simp only [segGo]
        rw [if_pos (by simp [hl]), List.nil_append]
        rw [segGo_acc total t (start + k + 1) (some l) (start + k) _]
        have IH := ih l (start + k) 1 (by omega) (by omega)
        obtain ⟨ihchain, ihsum, ihchain2, ihsec, s0, tl, hX, hs0⟩ := IH
        rw [List.singleton_append]
        refine ⟨?_, ?_, ?_, ?_, ?_⟩
        · refine ⟨rfl, ?_, ?_, ?_⟩
          · show 1 ≤ start + k - start
            omega
          · show start + k - 1 + 1 = start + (start + k - start)
            omega
          · show chainFrom (start + (start + k - start)) _
            have hidx2 : start + (start + k - start) = start + k := by omega
            rw [hidx2]
            exact ihchain
        · simp only [List.map_cons, List.sum_cons, List.length_cons]
          omega
        · rw [hX, List.chain'_cons]
          refine ⟨?_, ?_⟩
          · rw [hs0]
            exact fun h => hl h.symm
          · rw [← hX]
            exact ihchain2
        · intro s hs
          rcases List.mem_cons.mp hs with hs | hs
          · subst hs
            rfl
          · exact ihsec s hs
        · exact ⟨_, _, rfl, rfl⟩

theorem segmentsOf_spec (l : String) (t : List String) :
    chainFrom 0 (segmentsOf (l :: t))
  ∧ ((segmentsOf (l :: t)).map (fun s => s.duration_frames)).sum = (l :: t).length
  ∧ List.Chain' (fun s u => s.action ≠ u.action) (segmentsOf (l :: t))
  ∧ ∀ s ∈ segmentsOf (l :: t), s.duration_seconds = (s.duration_frames : ℚ) / 30 := by
  unfold segmentsOf
  simp only [segGo]
  rw [if_pos (by simp)]
  have H := segGo_spec (l :: t).length t l 0 1 (by omega) (by rw [List.length_cons]; omega)
  refine ⟨H.1, ?_, H.2.2.1, H.2.2.2.1⟩
  have hs := H.2.1
  rw [List.length_cons] at hs ⊢
  omega

/-- C5: for any (smoothed) label stream of length `N ≥ 1` the aggregator's
segment list is an ordered run-length encoding: frame counts sum to `N`,
segments tile positions `0..N-1` with no gaps or overlaps (each starts
right after the previous ends), adjacent segments carry different actions,
and each duration in seconds is its frame count divided by the assumed
30 fps. -/
theorem segmentation_is_rle (labels : List String) (h : 1 ≤ labels.length) :
    ((segmentsOf labels).map (fun s => s.duration_frames)).sum = labels.length
  ∧ chainFrom 0 (segmentsOf labels)
  ∧ List.Chain' (fun s u => s.action ≠ u.action) (segmentsOf labels)
  ∧ ∀ s ∈ segmentsOf labels, s.duration_seconds = (s.duration_frames : ℚ) / 30 := by
  have hne : labels ≠ [] := by
    intro he
    rw [he] at h
    simp at h
  obtain ⟨l, t, rfl⟩ := List.exists_cons_of_ne_nil hne
  have H := segmentsOf_spec l t
  exact ⟨H.2.1, H.1, H.2.2.1, H.2.2.2⟩

theorem segmentation_is_rle_witness :
    (((segmentsOf ["a", "a", "b"]).map (fun s => s.duration_frames)).sum
        = (["a", "a", "b"] : List String).length)
  ∧ chainFrom 0 (segmentsOf ["a", "a", "b"])
  ∧ List.Chain' (fun s u => s.action ≠ u.action) (segmentsOf ["a", "a", "b"])
  ∧ ∀ s ∈ segmentsOf ["a", "a", "b"],
      s.duration_seconds = (s.duration_frames : ℚ) / 30 :=
  segmentation_is_rle ["a", "a", "b"] (by decide)

theorem processFrame_frames_det (ops : NumOps) (st : LoopState) (p : ℕ × DetectionResult)
    (kp : Kpts) (bx : BBox) (hdet : p.2.det = some (kp, bx)) :
    (processFrame ops st p).frame_actions.map (fun r => r.frame)
      = st.frame_actions.map (fun r => r.frame) ++ [p.1] := by
  simp [processFrame, FeatureExtractor.update, _process_result, hdet, mkFrameRecord]

theorem runStream_frames (ops : NumOps) (l : List (ℕ × DetectionResult)) : ∀ st : LoopState,
    (runStream ops st l).frame_actions.map (fun r => r.frame)
      = st.frame_actions.map (fun r => r.frame)
        ++ (l.filter (fun p => p.2.det.isSome)).map (fun p => p.1) := by
  induction l with
  | nil => intro st; simp [runStream]
  | cons p t ih =>
      intro st
      have hstep : runStream ops st (p :: t) = runStream ops (processFrame ops st p) t := rfl
      rw [hstep]
      rcases hdet : p.2.det with _ | ⟨kp, bx⟩
      · rw [processFrame_nodet ops st p hdet, ih st, List.filter_cons]
        simp [hdet]
      · rw [ih (processFrame ops st p),
          processFrame_frames_det ops st p kp bx hdet, List.filter_cons]
        simp [hdet, List.append_assoc]

/-- C3 (amended): the aggregator preserves the original frame index in the
per-frame records — their `frame` fields are exactly the enumeration
indices of the frames that carried a detection — but the Action Segments'
`start_frame`/`end_frame` are 0-based positions into the dense processed
record list (they tile `0..`, per `chainFrom 0`), not original indices. -/
theorem frame_index_preservation_amended (ops : NumOps) (results : List DetectionResult) :
    ((analyze_behavior ops results).frame_by_frame_data).map (fun r => r.frame)
      = (results.enum.filter (fun p => p.2.det.isSome)).map (fun p => p.1)
  ∧ chainFrom 0 ((analyze_behavior ops results).action_timeline) := by
  constructor
  · show (runStream ops ⟨⟨60, []⟩, [], []⟩ results.enum).frame_actions.map (fun r => r.frame)
      = _
    rw [runStream_frames]
    simp
  · show chainFrom 0 (segmentsOf
      ((runStream ops ⟨⟨60, []⟩, [], []⟩ results.enum).frame_actions.map (fun r => r.action)))
    cases hE : (runStream ops ⟨⟨60, []⟩, [], []⟩ results.enum).frame_actions.map
        (fun r => r.action) with
    | nil => trivial
    | cons l t => exact (segmentsOf_spec l t).1

/-- C3 (counterexample): on `gapResults` the per-frame records carry the
original indices 1 and 2, but the single Action Segment covering them
reports `start_frame = 0` and `end_frame = 1` — dense positions, not the
original frame indices the claim asserts. -/
theorem segment_dense_indices_counterexample :
    ((analyze_behavior trivOps gapResults).frame_by_frame_data).map (fun r => r.frame)
        = [1, 2]
  ∧ ((analyze_behavior trivOps gapResults).action_timeline).map (fun s => s.start_frame)
        = [0]
  ∧ ((analyze_behavior trivOps gapResults).action_timeline).map (fun s => s.end_frame)
        = [1] := by
  with_unfolding_all decide
